import Mathlib

/-
Verification of the Tool Catalog Cache & Schema-Signature Translator of
the cc-plugins repository.

The embedded source lives in
  src/mcps/tools-executor/src/tools_executor/cli.py        (module-level)
  src/mcps/mcp-executor/src/mcp_executor/runtime.py        (class ToolExecutor)

JSON-like Python values are modelled by the inductive type JVal below;
Python dicts (which preserve insertion order) are modelled as association
lists whose lookup returns the first binding of a key.  Fallible Python
code (statements that can raise) is modelled with Except.
-/

set_option maxRecDepth 4000

/-- A JSON-like Python value: None, bool, int, str, list, dict.
JVal.null doubles as Python's None (json null parses to None). -/
inductive JVal where
  | null : JVal
  | bool : Bool → JVal
  | num : Int → JVal
  | str : String → JVal
  | arr : List JVal → JVal
  | obj : List (String × JVal) → JVal

/-- Models mcp.types.Tool as consumed by the two executors: a name, a
description and an input schema. -/
structure Tool where
  name : String
  description : String
  inputSchema : JVal

mutual
/-- Structural equality of JSON-like values, modelling Python == on the
values the executors compare (only like-typed comparisons occur). -/
def jeq : JVal → JVal → Bool
  | JVal.null, JVal.null => true
  | JVal.bool a, JVal.bool b => a == b
  | JVal.num a, JVal.num b => a == b
  | JVal.str a, JVal.str b => a == b
  | JVal.arr xs, JVal.arr ys => jeqList xs ys
  | JVal.obj fs, JVal.obj gs => jeqFields fs gs
  | _, _ => false

/-- Elementwise equality of JSON lists. -/
def jeqList : List JVal → List JVal → Bool
  | [], [] => true
  | x :: xs, y :: ys => jeq x y && jeqList xs ys
  | _, _ => false

/-- Itemwise equality of JSON dicts (order-sensitive, adequate here). -/
def jeqFields : List (String × JVal) → List (String × JVal) → Bool
  | [], [] => true
  | (k, v) :: fs, (l, w) :: gs => k == l && jeq v w && jeqFields fs gs
  | _, _ => false
end

/-- Dict lookup on an association list: first binding of the key, as in a
Python dict (which can hold each key at most once). -/
def jlookup : List (String × JVal) → String → Option JVal
  | [], _ => none
  | (k, v) :: rest, key => if k = key then some v else jlookup rest key

/-- Python membership test (the in operator) for JVal lists. -/
def jmem (x : JVal) : List JVal → Bool
  | [] => false
  | y :: ys => if jeq y x then true else jmem x ys

/-- Python hashability of a JSON value: lists and dicts are unhashable. -/
def jhashable : JVal → Bool
  | JVal.arr _ => false
  | JVal.obj _ => false
  | _ => true

/-- Python truthiness of a JSON value. -/
def jtruthy : JVal → Bool
  | JVal.null => false
  | JVal.bool b => b
  | JVal.num i => i != 0
  | JVal.str s => s != ""
  | JVal.arr xs => !xs.isEmpty
  | JVal.obj fs => !fs.isEmpty

/-- Decimal digit character, for rendering naturals the way Python's str
and repr do. -/
def decDigit : Nat → Char
  | 0 => '0' | 1 => '1' | 2 => '2' | 3 => '3' | 4 => '4'
  | 5 => '5' | 6 => '6' | 7 => '7' | 8 => '8' | 9 => '9'
  | _ => '*'

/-- Fuel-driven decimal digits of a natural number (most significant
first); the fuel n+1 always suffices for n. -/
def natDigitsAux : Nat → Nat → List Char
  | 0, _ => []
  | fuel + 1, n =>
    if n < 10 then [decDigit n]
    else natDigitsAux fuel (n / 10) ++ [decDigit (n % 10)]

/-- Decimal rendering of a natural number, modelling Python str(int) for
nonnegative integers. -/
def pyNatStr (n : Nat) : String := String.mk (natDigitsAux (n + 1) n)

/-- Decimal rendering of an integer, modelling Python str/repr of int. -/
def pyIntStr (i : Int) : String :=
  if i < 0 then ("-") ++ pyNatStr i.natAbs else pyNatStr i.natAbs

/-- Models Python repr() of a string for the common case: picks single
quotes unless the text holds a single quote and no double quote, and
escapes the backslash, the chosen quote and common control characters. -/
def pyStrReprBody (quote : Char) (cs : List Char) : List Char :=
  match cs with
  | [] => []
  | c :: rest =>
    (if c = '\\' then ['\\', '\\']
     else if c = quote then ['\\', quote]
     else if c = '\n' then ['\\', 'n']
     else if c = '\r' then ['\\', 'r']
     else if c = '\t' then ['\\', 't']
     else [c]) ++ pyStrReprBody quote rest

/-- Python repr of a str value. -/
def pyStrRepr (s : String) : String :=
  let quote := if s.data.contains '\'' && !(s.data.contains '"') then '"' else '\''
  String.mk (quote :: pyStrReprBody quote s.data ++ [quote])

mutual
/-- Models Python repr() of a JSON-like value. -/
def pyRepr : JVal → String
  | JVal.null => "None"
  | JVal.bool true => "True"
  | JVal.bool false => "False"
  | JVal.num i => pyIntStr i
  | JVal.str s => pyStrRepr s
  | JVal.arr xs => "[" ++ pyReprList xs ++ "]"
  | JVal.obj fs => "\x7b" ++ pyReprFields fs ++ "\x7d"

/-- Comma-separated reprs of list elements. -/
def pyReprList : List JVal → String
  | [] => ""
  | [x] => pyRepr x
  | x :: y :: rest => pyRepr x ++ ", " ++ pyReprList (y :: rest)

/-- Comma-separated reprs of dict items. -/
def pyReprFields : List (String × JVal) → String
  | [] => ""
  | [(k, v)] => pyStrRepr k ++ ": " ++ pyRepr v
  | (k, v) :: p :: rest => pyStrRepr k ++ ": " ++ pyRepr v ++ ", " ++ pyReprFields (p :: rest)
end

/-- Python str.endswith for the suffix check used by the translator. -/
def strEndsWith (s suf : String) : Bool :=
  decide (s.data.reverse.take suf.data.length = suf.data.reverse)

/-- Drops the longest run of characters satisfying p from the front. -/
def dropLeading (p : Char → Bool) : List Char → List Char
  | [] => []
  | c :: cs => if p c then dropLeading p cs else c :: cs

/-- Strips characters satisfying p from both ends, modelling Python
str.strip variants. -/
def pyStripChars (p : Char → Bool) (cs : List Char) : List Char :=
  (dropLeading p (dropLeading p cs).reverse).reverse

/-- The characters Python str.strip() removes by default (common ones). -/
def isPySpace (c : Char) : Bool :=
  c = ' ' || c = '\t' || c = '\n' || c = '\r' || c = Char.ofNat 11 || c = Char.ofNat 12

/-- Models Python str.strip() with no argument. -/
def pyStrip (s : String) : String := String.mk (pyStripChars isPySpace s.data)

/-- Models the regex character class [0-9a-zA-Z_] of the re.sub call in
_tool_name_to_identifier (both executors use the same pattern). -/
def reWordChar (c : Char) : Bool :=
  decide (('0' ≤ c ∧ c ≤ '9') ∨ ('a' ≤ c ∧ c ≤ 'z') ∨ ('A' ≤ c ∧ c ≤ 'Z') ∨ c = '_')

/-- The candidate identifier computed by _tool_name_to_identifier before
alias registration: re.sub of non-word characters to an underscore, a
strip of leading and trailing underscores, the fallback "tool" when the
result is empty, and a leading "tool_" when it starts with a digit. -/
def sanitizeCandidate (name : String) : String :=
  let identifier := String.mk
    (pyStripChars (fun c => c == '_') (name.data.map (fun c => if reWordChar c then c else '_')))
  let identifier := if identifier = "" then ("tool") else identifier
  match identifier.data with
  | c :: _ => if '0' ≤ c ∧ c ≤ '9' then ("tool_") ++ identifier else identifier
  | [] => identifier

/-- The alias table _TOOL_ALIASES (cli.py) and ToolExecutor._tool_aliases
(runtime.py): a dict from local identifier to raw tool name, modelled as
an insertion-ordered association list. -/
abbrev Aliases := List (String × String)

/-- Dict lookup for the alias table. -/
def dget : Aliases → String → Option String
  | [], _ => none
  | (k, v) :: rest, key => if k = key then some v else dget rest key

/-- Dict assignment for the alias table: replace the first binding of the
key in place, or append a new binding at the end. -/
def dset : Aliases → String → String → Aliases
  | [], k, v => [(k, v)]
  | (k0, v0) :: rest, k, v =>
    if k0 = k then (k0, v) :: rest else (k0, v0) :: dset rest k v

/-- The suffix probe loop of _register_tool_alias, fuelled: each step
tries base_suffix and binds it when it is absent or already bound to
raw_name, else moves to the next suffix. -/
def probeAlias (t : Aliases) (raw_name base : String) : Nat → Nat → Option (Aliases × String)
  | 0, _ => none
  | fuel + 1, suffix =>
    let candidate := base ++ "_" ++ pyNatStr suffix
    match dget t candidate with
    | none => some (dset t candidate raw_name, candidate)
    | some existing =>
      if existing = raw_name then some (dset t candidate raw_name, candidate)
      else probeAlias t raw_name base fuel (suffix + 1)

/-- _register_tool_alias: keep an identifier already bound to this raw
name, bind an unbound identifier, and otherwise probe the suffixes _2,
_3, ....  The probe fuel t.length + 1 provably always suffices (theorem
register_probe_reaches_free_key below), so the fallback arm that returns
the identifier unchanged is unreachable. -/
def register_tool_alias (t : Aliases) (raw_name identifier : String) : Aliases × String :=
  match dget t identifier with
  | some existing =>
    if existing = raw_name then (t, identifier)
    else
      match probeAlias t raw_name identifier (t.length + 1) 2 with
      | some r => r
      | none => (t, identifier)
  | none => (dset t identifier raw_name, identifier)

/-- _tool_name_to_identifier: sanitize the raw name, then register the
candidate in the alias table. -/
def tool_name_to_identifier (t : Aliases) (name : String) : Aliases × String :=
  register_tool_alias t name (sanitizeCandidate name)

/-- One alias-building pass over the catalog names, as performed by
_ensure_tool_aliases / _list_tools_impl right after a reset: register
each name in catalog order, recording (raw name, assigned identifier). -/
def build_alias_assignments : List String → Aliases → Aliases × List (String × String)
  | [], t => (t, [])
  | n :: ns, t =>
    let p := tool_name_to_identifier t n
    let q := build_alias_assignments ns p.1
    (q.1, (n, p.2) :: q.2)

/-- The alias table produced by a reset followed by one full pass. -/
def build_aliases (names : List String) : Aliases :=
  (build_alias_assignments names []).1

/-- Name resolution in _call_tool_impl / ToolExecutor.call_tool:
the dict get self._tool_aliases.get(name, name). -/
def resolve_tool_name (t : Aliases) (name : String) : String :=
  match dget t name with
  | some raw => raw
  | none => name

/-- Modelled from the spec wording of the sanitize contract (claim C6):
replace every character outside [0-9A-Za-z_] with an underscore, strip
leading and trailing underscores, substitute the literal fallback "tool"
if the result is empty, put "tool_" in front if the first character is a
digit. -/
def spec_allowed (c : Char) : Bool :=
  decide (('0' ≤ c ∧ c ≤ '9') ∨ ('A' ≤ c ∧ c ≤ 'Z') ∨ ('a' ≤ c ∧ c ≤ 'z') ∨ c = '_')

/-- The spec-worded sanitizer, built from standard list combinators; to be
compared against sanitizeCandidate, which is transcribed from the code. -/
def spec_sanitize (name : String) : String :=
  let replaced := name.data.map (fun c => if spec_allowed c then c else '_')
  let stripped := ((replaced.dropWhile (fun c => c == '_')).reverse.dropWhile (fun c => c == '_')).reverse
  let base := if stripped.isEmpty then ("tool").data else stripped
  match base with
  | c :: _ => if '0' ≤ c ∧ c ≤ '9' then String.mk (("tool_").data ++ base) else String.mk base
  | [] => String.mk base

/-- State of the catalog cache: the optional in-flight-or-completed fetch
task (identified by a task id), a fresh-id counter, and a count of the
fetches ever started.  Models ToolExecutor._list_task in runtime.py and
equally the single lru_cache slot of _list_tools_task_cache in cli.py;
one fetch task performs exactly one client.list_tools() call. -/
structure CacheState where
  list_task : Option Nat
  next_task : Nat
  fetch_count : Nat
deriving DecidableEq

/-- The Empty cache state: no fetch started yet. -/
def emptyCache : CacheState := { list_task := none, next_task := 0, fetch_count := 0 }

/-- The synchronous part of ToolExecutor._get_tools, which runs atomically
under asyncio's cooperative scheduling (there is no await between the
check of _list_task and the create_task assignment): when refresh is set
or no task exists, create a new fetch task and return its id, else return
the existing task's id. -/
def get_tools_start (s : CacheState) (refresh : Bool) : CacheState × Nat :=
  match s.list_task, refresh with
  | some t, false => (s, t)
  | _, _ =>
    ({ list_task := some s.next_task, next_task := s.next_task + 1,
       fetch_count := s.fetch_count + 1 }, s.next_task)

/-- The await part of ToolExecutor._get_tools: awaiting the chosen task
yields that task's outcome; on an exception the handler clears _list_task
and re-raises (cli.py's _list_tools_impl and _ensure_tool_aliases do the
same through _reset_tools_cache). -/
def get_tools_await (s : CacheState) (outcome : Except String (List Tool)) :
    CacheState × Except String (List Tool) :=
  match outcome with
  | Except.ok r => (s, Except.ok r)
  | Except.error e => ({ s with list_task := none }, Except.error e)

/-- N concurrent getCatalog(refresh=false) callers running their atomic
prologues in arrival order; returns the final state and the task id each
caller will await. -/
def run_starts : Nat → CacheState → CacheState × List Nat
  | 0, s => (s, [])
  | n + 1, s =>
    let p := get_tools_start s false
    let q := run_starts n p.1
    (q.1, p.2 :: q.2)

/-- The callers then awaiting their tasks, in order; outcome gives each
task's result.  Returns the final state and what each caller received. -/
def run_awaits (outcome : Nat → Except String (List Tool)) :
    List Nat → CacheState → CacheState × List (Except String (List Tool))
  | [], s => (s, [])
  | t :: ts, s =>
    let p := get_tools_await s (outcome t)
    let q := run_awaits outcome ts p.1
    (q.1, p.2 :: q.2)

/-- Cache state after n concurrent refresh=false callers all awaited one
failing fetch whose error is e. -/
def fail_scenario_state (n : Nat) (e : String) : CacheState :=
  (run_awaits (fun _ => Except.error e) (run_starts n emptyCache).2 (run_starts n emptyCache).1).1

/-- What each of the n callers received in that failing scenario. -/
def fail_scenario_results (n : Nat) (e : String) : List (Except String (List Tool)) :=
  (run_awaits (fun _ => Except.error e) (run_starts n emptyCache).2 (run_starts n emptyCache).1).2

mutual
/-- Computable structural size of a JSON value, used as fuel for the
recursion of the annotation inference through nested array items. -/
def jsize : JVal → Nat
  | JVal.null => 1
  | JVal.bool _ => 1
  | JVal.num _ => 1
  | JVal.str _ => 1
  | JVal.arr xs => 1 + jsizeList xs
  | JVal.obj fs => 1 + jsizeFields fs

/-- Size of a JSON list. -/
def jsizeList : List JVal → Nat
  | [] => 0
  | x :: xs => 1 + jsize x + jsizeList xs

/-- Size of a JSON dict. -/
def jsizeFields : List (String × JVal) → Nat
  | [] => 0
  | (_, v) :: fs => 1 + jsize v + jsizeFields fs
end

/-- The parameter descriptor assembled for one property by the loop body
of _schema_parameters: the final type annotation, the optional flag, the
rendered signature fragment and the rendered documentation entry. -/
structure ParamInfo where
  typeAnn : String
  optional : Bool
  param_str : String
  doc_entry : String
deriving DecidableEq

namespace ToolsExecutor

/-- The type_map dict of _annotation_from_schema in cli.py, as the
dict.get with fallback "Any". -/
def type_map (s : String) : String :=
  if s = ("string") then ("str")
  else if s = ("integer") then ("int")
  else if s = ("number") then ("float")
  else if s = ("boolean") then ("bool")
  else if s = ("array") then ("list")
  else if s = ("object") then ("dict")
  else ("Any")

/-- _annotation_from_schema of cli.py, fuelled for the recursion through
the "items" field of an array schema; the fuel sizeOf fs used by the
wrapper below provably suffices (theorem annotationAux_fuel_stable). -/
def annotationAux : Nat → List (String × JVal) → String × Bool
  | 0, _ => (("Any"), false)
  | fuel + 1, fs =>
    let schema_type := (jlookup fs ("type")).getD JVal.null
    let nullable := match schema_type with
      | JVal.arr ts => jmem (JVal.str ("null")) ts
      | _ => false
    let schema_type := match schema_type with
      | JVal.arr ts => (ts.find? (fun t => !(jeq t (JVal.str ("null"))))).getD JVal.null
      | st => st
    if jeq schema_type (JVal.str ("array")) then
      let items := (jlookup fs ("items")).getD JVal.null
      let inner := match items with
        | JVal.obj gs => (annotationAux fuel gs).1
        | _ => ("Any")
      (("list[") ++ inner ++ ("]"), nullable)
    else
      let ann := match schema_type with
        | JVal.str s => type_map s
        | _ => ("Any")
      let ann := if (match schema_type with | JVal.null => true | _ => false)
                    && jtruthy ((jlookup fs ("enum")).getD JVal.null)
                 then ("str") else ann
      (ann, nullable)

/-- _annotation_from_schema of cli.py on a property dict. -/
def annotation_from_schema (fs : List (String × JVal)) : String × Bool :=
  annotationAux (jsizeFields fs) fs

/-- The description lookup of the _schema_parameters loop in cli.py:
prop_schema.get("description", fallback).strip() or fallback.  A present
non-string description makes the .strip() attribute access raise. -/
def descOf (fs : List (String × JVal)) : Except String String :=
  match jlookup fs ("description") with
  | none => Except.ok ("No description provided.")
  | some (JVal.str s) =>
    let t := pyStrip s
    Except.ok (if t = "" then ("No description provided.") else t)
  | some _ => Except.error ("AttributeError: a non-string description has no strip method")

/-- The required set of _schema_parameters in cli.py:
set(required_field) if it is a list (raising on unhashable elements),
else the empty set. -/
def requiredSetOf (fs : List (String × JVal)) : Except String (List JVal) :=
  match jlookup fs ("required") with
  | some (JVal.arr xs) =>
    if xs.all jhashable then Except.ok xs
    else Except.error ("TypeError: unhashable element in set(required)")
  | _ => Except.ok []

/-- The body of the per-property loop of _schema_parameters in cli.py. -/
def param_info (required : List JVal) (param_name : String) (prop_schema : JVal) :
    Except String ParamInfo :=
  let triple : Except String (String × Bool × String × Option JVal) :=
    match prop_schema with
    | JVal.obj fs =>
      let ab := annotation_from_schema fs
      match descOf fs with
      | Except.error e => Except.error e
      | Except.ok description => Except.ok (ab.1, ab.2, description, jlookup fs ("default"))
    | _ => Except.ok (("Any"), false, ("No description provided."), none)
  match triple with
  | Except.error e => Except.error e
  | Except.ok (ann0, nullable_from_type, description, default_value) =>
    let is_required := jmem (JVal.str param_name) required
    let has_null_default := match default_value with
      | some JVal.null => true
      | _ => false
    let optional := nullable_from_type || !is_required || has_null_default
    let ann := if optional && !(strEndsWith ann0 (" | None")) then ann0 ++ (" | None") else ann0
    let param_str := param_name ++ (": ") ++ ann ++
      (match default_value with
       | some v => (" = ") ++ pyRepr v
       | none => if !is_required then (" = None") else (""))
    let meta_parts := (match default_value with
       | some v => [("default=") ++ pyRepr v]
       | none => []) ++ [if is_required then ("required") else ("optional")]
    let meta_text := if meta_parts.isEmpty then ("")
                     else (" [") ++ String.intercalate (", ") meta_parts ++ ("]")
    let doc_entry := param_name ++ (" (") ++ ann ++ ("): ") ++ description ++ meta_text
    Except.ok { typeAnn := ann, optional := optional, param_str := param_str, doc_entry := doc_entry }

/-- The full property loop of _schema_parameters in cli.py, stopping at
the first raising property. -/
def param_infos (required : List JVal) : List (String × JVal) → Except String (List ParamInfo)
  | [] => Except.ok []
  | (n, p) :: rest =>
    match param_info required n p with
    | Except.error e => Except.error e
    | Except.ok i =>
      match param_infos required rest with
      | Except.error e => Except.error e
      | Except.ok more => Except.ok (i :: more)

/-- _schema_parameters of cli.py: the rendered signature and the list of
documentation entries. -/
def schema_parameters (schema : JVal) : Except String (String × List String) :=
  match schema with
  | JVal.obj fs =>
    match jlookup fs ("properties") with
    | some (JVal.obj props) =>
      if props.isEmpty then Except.ok (("()"), [])
      else
        match requiredSetOf fs with
        | Except.error e => Except.error e
        | Except.ok required =>
          match param_infos required props with
          | Except.error e => Except.error e
          | Except.ok infos =>
            let params := infos.map (fun i => i.param_str)
            let doc_entries := infos.map (fun i => i.doc_entry)
            if params.isEmpty then Except.ok (("()"), doc_entries)
            else Except.ok ((("(*, ") ++ String.intercalate (", ") params ++ (")")), doc_entries)
    | _ => Except.ok (("()"), [])
  | _ => Except.ok (("()"), [])

end ToolsExecutor

namespace McpExecutor

/-- The type_map dict of ToolExecutor._annotation_from_schema in
runtime.py, as the dict.get with fallback "Any". -/
def type_map (s : String) : String :=
  if s = ("string") then ("str")
  else if s = ("integer") then ("int")
  else if s = ("number") then ("float")
  else if s = ("boolean") then ("bool")
  else if s = ("array") then ("list")
  else if s = ("object") then ("dict")
  else ("Any")

/-- ToolExecutor._annotation_from_schema of runtime.py, fuelled for the
recursion through the "items" field of an array schema. -/
def annotationAux : Nat → List (String × JVal) → String × Bool
  | 0, _ => (("Any"), false)
  | fuel + 1, fs =>
    let schema_type := (jlookup fs ("type")).getD JVal.null
    let nullable := match schema_type with
      | JVal.arr ts => jmem (JVal.str ("null")) ts
      | _ => false
    let schema_type := match schema_type with
      | JVal.arr ts => (ts.find? (fun t => !(jeq t (JVal.str ("null"))))).getD JVal.null
      | st => st
    if jeq schema_type (JVal.str ("array")) then
      let items := (jlookup fs ("items")).getD JVal.null
      let inner := match items with
        | JVal.obj gs => (annotationAux fuel gs).1
        | _ => ("Any")
      (("list[") ++ inner ++ ("]"), nullable)
    else
      let ann := match schema_type with
        | JVal.str s => type_map s
        | _ => ("Any")
      let ann := if (match schema_type with | JVal.null => true | _ => false)
                    && jtruthy ((jlookup fs ("enum")).getD JVal.null)
                 then ("str") else ann
      (ann, nullable)

/-- ToolExecutor._annotation_from_schema of runtime.py on a property
dict. -/
def annotation_from_schema (fs : List (String × JVal)) : String × Bool :=
  annotationAux (jsizeFields fs) fs

/-- The description lookup of the ToolExecutor._schema_parameters loop in
runtime.py. -/
def descOf (fs : List (String × JVal)) : Except String String :=
  match jlookup fs ("description") with
  | none => Except.ok ("No description provided.")
  | some (JVal.str s) =>
    let t := pyStrip s
    Except.ok (if t = "" then ("No description provided.") else t)
  | some _ => Except.error ("AttributeError: a non-string description has no strip method")

/-- The required set of ToolExecutor._schema_parameters in runtime.py. -/
def requiredSetOf (fs : List (String × JVal)) : Except String (List JVal) :=
  match jlookup fs ("required") with
  | some (JVal.arr xs) =>
    if xs.all jhashable then Except.ok xs
    else Except.error ("TypeError: unhashable element in set(required)")
  | _ => Except.ok []

/-- The body of the per-property loop of ToolExecutor._schema_parameters
in runtime.py. -/
def param_info (required : List JVal) (param_name : String) (prop_schema : JVal) :
    Except String ParamInfo :=
  let triple : Except String (String × Bool × String × Option JVal) :=
    match prop_schema with
    | JVal.obj fs =>
      let ab := annotation_from_schema fs
      match descOf fs with
      | Except.error e => Except.error e
      | Except.ok description => Except.ok (ab.1, ab.2, description, jlookup fs ("default"))
    | _ => Except.ok (("Any"), false, ("No description provided."), none)
  match triple with
  | Except.error e => Except.error e
  | Except.ok (ann0, nullable_from_type, description, default_value) =>
    let is_required := jmem (JVal.str param_name) required
    let has_null_default := match default_value with
      | some JVal.null => true
      | _ => false
    let optional := nullable_from_type || !is_required || has_null_default
    let ann := if optional && !(strEndsWith ann0 (" | None")) then ann0 ++ (" | None") else ann0
    let param_str := param_name ++ (": ") ++ ann ++
      (match default_value with
       | some v => (" = ") ++ pyRepr v
       | none => if !is_required then (" = None") else (""))
    let meta_parts := (match default_value with
       | some v => [("default=") ++ pyRepr v]
       | none => []) ++ [if is_required then ("required") else ("optional")]
    let meta_text := if meta_parts.isEmpty then ("")
                     else (" [") ++ String.intercalate (", ") meta_parts ++ ("]")
    let doc_entry := param_name ++ (" (") ++ ann ++ ("): ") ++ description ++ meta_text
    Except.ok { typeAnn := ann, optional := optional, param_str := param_str, doc_entry := doc_entry }

/-- The full property loop of ToolExecutor._schema_parameters in
runtime.py. -/
def param_infos (required : List JVal) : List (String × JVal) → Except String (List ParamInfo)
  | [] => Except.ok []
  | (n, p) :: rest =>
    match param_info required n p with
    | Except.error e => Except.error e
    | Except.ok i =>
      match param_infos required rest with
      | Except.error e => Except.error e
      | Except.ok more => Except.ok (i :: more)

/-- ToolExecutor._schema_parameters of runtime.py. -/
def schema_parameters (schema : JVal) : Except String (String × List String) :=
  match schema with
  | JVal.obj fs =>
    match jlookup fs ("properties") with
    | some (JVal.obj props) =>
      if props.isEmpty then Except.ok (("()"), [])
      else
        match requiredSetOf fs with
        | Except.error e => Except.error e
        | Except.ok required =>
          match param_infos required props with
          | Except.error e => Except.error e
          | Except.ok infos =>
            let params := infos.map (fun i => i.param_str)
            let doc_entries := infos.map (fun i => i.doc_entry)
            if params.isEmpty then Except.ok (("()"), doc_entries)
            else Except.ok ((("(*, ") ++ String.intercalate (", ") params ++ (")")), doc_entries)
    | _ => Except.ok (("()"), [])
  | _ => Except.ok (("()"), [])

end McpExecutor

/-- Claim-side reading of "the type union contains null" for a property
schema: its "type" field is a list holding the string "null". -/
def type_union_has_null (prop_schema : JVal) : Bool :=
  match prop_schema with
  | JVal.obj fs =>
    match (jlookup fs ("type")).getD JVal.null with
    | JVal.arr ts => jmem (JVal.str ("null")) ts
    | _ => false
  | _ => false

/-- Claim-side reading of "an explicit default equal to null is
present". -/
def has_explicit_null_default (prop_schema : JVal) : Bool :=
  match prop_schema with
  | JVal.obj fs =>
    match jlookup fs ("default") with
    | some JVal.null => true
    | _ => false
  | _ => false

/-- A property schema whose description, when present on a dict property
schema, is a string (the only shape whose .strip() cannot raise). -/
def desc_ok (prop_schema : JVal) : Bool :=
  match prop_schema with
  | JVal.obj fs =>
    match jlookup fs ("description") with
    | none => true
    | some (JVal.str _) => true
    | some _ => false
  | _ => true

/-- The required field, when a list, holds only hashable elements, so the
set() construction cannot raise. -/
def required_ok (fs : List (String × JVal)) : Bool :=
  match jlookup fs ("required") with
  | some (JVal.arr xs) => xs.all jhashable
  | _ => true

/-- Schemas on which the translator provably raises nothing: every
property description (if any) is a string and the required list (if it is
reached) holds only hashable values. -/
def translator_input_safe (schema : JVal) : Bool :=
  match schema with
  | JVal.obj fs =>
    match jlookup fs ("properties") with
    | some (JVal.obj props) =>
      props.isEmpty || (required_ok fs && props.all (fun p => desc_ok p.2))
    | _ => true
  | _ => true

/-- Whether an Except carries a value (the call returned without
raising). -/
def exceptOk {ε α : Type} : Except ε α → Bool
  | Except.ok _ => true
  | Except.error _ => false

/-- Value of a decimal digit character, inverse of decDigit. -/
def digitVal : Char → Nat
  | '0' => 0 | '1' => 1 | '2' => 2 | '3' => 3 | '4' => 4
  | '5' => 5 | '6' => 6 | '7' => 7 | '8' => 8 | '9' => 9
  | _ => 10

/-- Decimal parser used to prove the decimal rendering injective. -/
def parseDigitsAcc : Nat → List Char → Nat
  | acc, [] => acc
  | acc, c :: cs => parseDigitsAcc (acc * 10 + digitVal c) cs

/-- The inferred (pre-wrapping) annotation of a property schema, as the
claims phrase it: the first component of the type-inference helper on a
dict property schema, and the universal "Any" otherwise. -/
def inferred_ann (prop_schema : JVal) : String :=
  match prop_schema with
  | JVal.obj fs => (ToolsExecutor.annotation_from_schema fs).1
  | _ => ("Any")

/-- The nullable-union scenario property schema of the spec:
the JSON value for the fragment with type ["string", "null"]. -/
def nullableStringProp : JVal :=
  JVal.obj [(("type"), JVal.arr [JVal.str ("string"), JVal.str ("null")])]

/-- A schema with a non-string description on a listed property; the
translator raises AttributeError on it in Python. -/
def badDescSchema : JVal :=
  JVal.obj [(("properties"), JVal.obj [(("p"), JVal.obj [(("description"), JVal.num 5)])])]

/-- The round-trip scenario schema of the spec (claim C8). -/
def roundTripSchema : JVal :=
  JVal.obj [
    (("type"), JVal.str ("object")),
    (("properties"), JVal.obj [
      (("query"), JVal.obj [(("type"), JVal.str ("string")),
                            (("description"), JVal.str ("search text"))]),
      (("limit"), JVal.obj [(("type"), JVal.str ("integer")),
                            (("default"), JVal.num 5)])]),
    (("required"), JVal.arr [JVal.str ("query")])]

theorem parseDigitsAcc_append (xs ys : List Char) : ∀ acc,
    parseDigitsAcc acc (xs ++ ys) = parseDigitsAcc (parseDigitsAcc acc xs) ys := by
  induction xs with
  | nil => intro acc; rfl
  | cons c cs ih => intro acc; exact ih _

theorem digitVal_decDigit (d : Nat) (h : d < 10) : digitVal (decDigit d) = d := by
  interval_cases d <;> rfl

theorem parse_natDigitsAux : ∀ fuel n, n < fuel →
    parseDigitsAcc 0 (natDigitsAux fuel n) = n := by
  intro fuel
  induction fuel with
  | zero => intro n h; omega
  | succ f ih =>
    intro n h
    by_cases h10 : n < 10
    · rw [natDigitsAux, if_pos h10, parseDigitsAcc, parseDigitsAcc, digitVal_decDigit n h10]
      omega
    · have hdiv : n / 10 < f := by omega
      have hmod : n % 10 < 10 := by omega
      rw [natDigitsAux, if_neg h10, parseDigitsAcc_append, ih _ hdiv, parseDigitsAcc,
        parseDigitsAcc, digitVal_decDigit (n % 10) hmod]
      omega

theorem natDigitsAux_inj {m n : Nat}
    (h : natDigitsAux (m + 1) m = natDigitsAux (n + 1) n) : m = n := by
  have h1 := parse_natDigitsAux (m + 1) m (by omega)
  have h2 := parse_natDigitsAux (n + 1) n (by omega)
  rw [h] at h1
  exact h1.symm.trans h2

theorem candidate_inj (base : String) {i j : Nat}
    (h : base ++ "_" ++ pyNatStr i = base ++ "_" ++ pyNatStr j) : i = j := by
  have hd := congrArg String.data h
  rw [String.data_append, String.data_append] at hd
  have hc := List.append_cancel_left hd
  exact natDigitsAux_inj hc

theorem probeAlias_succ (t : Aliases) (raw base : String) (f s : Nat) :
    probeAlias t raw base (f + 1) s =
      (match dget t (base ++ "_" ++ pyNatStr s) with
       | none => some (dset t (base ++ "_" ++ pyNatStr s) raw, base ++ "_" ++ pyNatStr s)
       | some existing =>
         if existing = raw then some (dset t (base ++ "_" ++ pyNatStr s) raw, base ++ "_" ++ pyNatStr s)
         else probeAlias t raw base f (s + 1)) := rfl

theorem probeAlias_none (t : Aliases) (raw base : String) :
    ∀ fuel s, probeAlias t raw base fuel s = none →
      ∀ i, i < fuel →
        ∃ v, dget t (base ++ "_" ++ pyNatStr (s + i)) = some v ∧ v ≠ raw := by
  intro fuel
  induction fuel with
  | zero => intro s h i hi; omega
  | succ f ih =>
    intro s h i hi
    rw [probeAlias_succ] at h
    cases hg : dget t (base ++ "_" ++ pyNatStr s) with
    | none => rw [hg] at h; simp at h
    | some existing =>
      rw [hg] at h
      by_cases he : existing = raw
      · simp [he] at h
      · simp only [if_neg he] at h
        cases i with
        | zero => exact ⟨existing, by simpa using hg, he⟩
        | succ i' =>
          have hrec := ih (s + 1) h i' (by omega)
          have harith : s + 1 + i' = s + (i' + 1) := by omega
          rw [harith] at hrec
          exact hrec

theorem dget_some_mem (t : Aliases) (k v : String) (h : dget t k = some v) :
    k ∈ t.map Prod.fst := by
  induction t with
  | nil => simp [dget] at h
  | cons kv rest ih =>
    obtain ⟨k0, v0⟩ := kv
    by_cases h0 : k0 = k
    · subst h0; simp
    · rw [dget, if_neg h0] at h
      simp [ih h]

theorem probeAlias_isSome (t : Aliases) (raw base : String) :
    (probeAlias t raw base (t.length + 1) 2).isSome = true := by
  by_contra hns
  have hnone : probeAlias t raw base (t.length + 1) 2 = none := by
    cases hp : probeAlias t raw base (t.length + 1) 2 with
    | none => rfl
    | some r => rw [hp] at hns; simp at hns
  have hall := probeAlias_none t raw base (t.length + 1) 2 hnone
  let f : Fin (t.length + 1) → String := fun i => base ++ "_" ++ pyNatStr (2 + i)
  have hinj : Function.Injective f := by
    intro a b hab
    have hij := candidate_inj base hab
    exact Fin.ext (by omega)
  have hmem : ∀ i : Fin (t.length + 1), f i ∈ t.map Prod.fst := by
    intro i
    obtain ⟨v, hv, _⟩ := hall i i.isLt
    exact dget_some_mem t _ v hv
  have hsub : Finset.univ.image f ⊆ (t.map Prod.fst).toFinset := by
    intro x hx
    rw [Finset.mem_image] at hx
    obtain ⟨i, _, hi⟩ := hx
    exact hi ▸ List.mem_toFinset.mpr (hmem i)
  have h1 : (Finset.univ.image f).card = t.length + 1 := by
    rw [Finset.card_image_of_injective _ hinj, Finset.card_univ, Fintype.card_fin]
  have h2 := Finset.card_le_card hsub
  have h3 := List.toFinset_card_le (t.map Prod.fst)
  rw [h1] at h2
  rw [List.length_map] at h3
  omega

theorem probeAlias_some (t : Aliases) (raw base : String) :
    ∀ fuel s t' c, probeAlias t raw base fuel s = some (t', c) →
      t' = dset t c raw ∧ (dget t c = none ∨ dget t c = some raw) := by
  intro fuel
  induction fuel with
  | zero => intro s t' c h; simp [probeAlias] at h
  | succ f ih =>
    intro s t' c h
    rw [probeAlias_succ] at h
    cases hg : dget t (base ++ "_" ++ pyNatStr s) with
    | none =>
      rw [hg] at h
      simp only [Option.some.injEq, Prod.mk.injEq] at h
      obtain ⟨ht, hc⟩ := h
      subst hc
      exact ⟨ht.symm, Or.inl hg⟩
    | some existing =>
      rw [hg] at h
      by_cases he : existing = raw
      · simp only [he, if_true, eq_self_iff_true, Option.some.injEq, Prod.mk.injEq, ite_true] at h
        obtain ⟨ht, hc⟩ := h
        subst hc
        exact ⟨ht.symm, Or.inr (he ▸ hg)⟩
      · simp only [he, if_false, ite_false] at h
        exact ih (s + 1) t' c h

theorem dget_dset_self (t : Aliases) (k v : String) : dget (dset t k v) k = some v := by
  induction t with
  | nil => simp [dset, dget]
  | cons kv rest ih =>
    obtain ⟨k0, v0⟩ := kv
    by_cases h0 : k0 = k
    · subst h0; simp [dset, dget]
    · simp [dset, dget, h0, ih]

theorem dget_dset_ne (t : Aliases) (k v k' : String) (h : k' ≠ k) :
    dget (dset t k v) k' = dget t k' := by
  induction t with
  | nil => simp [dset, dget, Ne.symm h]
  | cons kv rest ih =>
    obtain ⟨k0, v0⟩ := kv
    by_cases h0 : k0 = k
    · subst h0; simp [dset, dget, Ne.symm h]
    · by_cases h1 : k0 = k'
      · subst h1; simp [dset, dget, h0]
      · simp [dset, dget, h0, h1, ih]

theorem mem_keys_dset (t : Aliases) (k v x : String)
    (h : x ∈ (dset t k v).map Prod.fst) : x ∈ t.map Prod.fst ∨ x = k := by
  induction t with
  | nil => simp [dset] at h; exact Or.inr h
  | cons kv rest ih =>
    obtain ⟨k0, v0⟩ := kv
    by_cases h0 : k0 = k
    · subst h0
      rw [dset, if_pos rfl, List.map_cons] at h
      rw [List.map_cons]
      exact Or.inl h
    · rw [dset, if_neg h0, List.map_cons] at h
      rcases List.mem_cons.mp h with hx | hx
      · exact Or.inl (by rw [List.map_cons]; exact List.mem_cons.mpr (Or.inl hx))
      · rcases ih hx with hr | hk
        · exact Or.inl (by rw [List.map_cons]; exact List.mem_cons.mpr (Or.inr hr))
        · exact Or.inr hk

theorem keys_dset_nodup (t : Aliases) (k v : String)
    (h : (t.map Prod.fst).Nodup) : ((dset t k v).map Prod.fst).Nodup := by
  induction t with
  | nil => simp [dset]
  | cons kv rest ih =>
    obtain ⟨k0, v0⟩ := kv
    rw [List.map_cons, List.nodup_cons] at h
    obtain ⟨h1, h2⟩ := h
    by_cases h0 : k0 = k
    · subst h0
      rw [dset, if_pos rfl, List.map_cons, List.nodup_cons]
      exact ⟨h1, h2⟩
    · rw [dset, if_neg h0, List.map_cons, List.nodup_cons]
      refine ⟨fun hm => ?_, ih h2⟩
      rcases mem_keys_dset rest k v k0 hm with hr | hk
      · exact h1 hr
      · exact h0 hk

theorem register_hit (t : Aliases) (raw identifier : String)
    (hg : dget t identifier = some raw) :
    register_tool_alias t raw identifier = (t, identifier) := by
  unfold register_tool_alias
  rw [hg]
  simp

theorem register_free (t : Aliases) (raw identifier : String)
    (hg : dget t identifier = none) :
    register_tool_alias t raw identifier = (dset t identifier raw, identifier) := by
  unfold register_tool_alias
  rw [hg]

theorem register_collision (t : Aliases) (raw identifier existing : String)
    (hg : dget t identifier = some existing) (he : existing ≠ raw)
    (t' : Aliases) (c : String)
    (hp : probeAlias t raw identifier (t.length + 1) 2 = some (t', c)) :
    register_tool_alias t raw identifier = (t', c) := by
  unfold register_tool_alias
  rw [hg]
  simp only [he, if_false, ite_false]
  rw [hp]

theorem register_persists (t : Aliases) (raw identifier k w : String)
    (h : dget t k = some w) :
    dget (register_tool_alias t raw identifier).1 k = some w := by
  cases hg : dget t identifier with
  | none =>
    rw [register_free t raw identifier hg]
    by_cases hk : k = identifier
    · subst hk; rw [h] at hg; cases hg
    · rw [dget_dset_ne t identifier raw k hk]; exact h
  | some existing =>
    by_cases he : existing = raw
    · subst he
      rw [register_hit t existing identifier hg]
      exact h
    · have hs := probeAlias_isSome t raw identifier
      cases hp : probeAlias t raw identifier (t.length + 1) 2 with
      | none => rw [hp] at hs; simp at hs
      | some r =>
        obtain ⟨t', c⟩ := r
        rw [register_collision t raw identifier existing hg he t' c hp]
        obtain ⟨ht', hor⟩ := probeAlias_some t raw identifier (t.length + 1) 2 t' c hp
        show dget t' k = some w
        rw [ht']
        by_cases hk : k = c
        · rw [hk] at h ⊢
          rcases hor with hn | hraw
          · rw [hn] at h; exact Option.noConfusion h
          · rw [hraw] at h
            have hw : raw = w := by injection h
            rw [dget_dset_self t c raw, hw]
        · rw [dget_dset_ne t c raw k hk]
          exact h

theorem register_binds (t : Aliases) (raw identifier : String) :
    dget (register_tool_alias t raw identifier).1 (register_tool_alias t raw identifier).2 =
      some raw := by
  cases hg : dget t identifier with
  | none =>
    rw [register_free t raw identifier hg]
    exact dget_dset_self t identifier raw
  | some existing =>
    by_cases he : existing = raw
    · subst he
      rw [register_hit t existing identifier hg]
      exact hg
    · have hs := probeAlias_isSome t raw identifier
      cases hp : probeAlias t raw identifier (t.length + 1) 2 with
      | none => rw [hp] at hs; simp at hs
      | some r =>
        obtain ⟨t', c⟩ := r
        rw [register_collision t raw identifier existing hg he t' c hp]
        obtain ⟨ht', _⟩ := probeAlias_some t raw identifier (t.length + 1) 2 t' c hp
        subst ht'
        exact dget_dset_self t c raw

theorem register_nodup (t : Aliases) (raw identifier : String)
    (h : (t.map Prod.fst).Nodup) :
    ((register_tool_alias t raw identifier).1.map Prod.fst).Nodup := by
  cases hg : dget t identifier with
  | none =>
    rw [register_free t raw identifier hg]
    exact keys_dset_nodup t identifier raw h
  | some existing =>
    by_cases he : existing = raw
    · subst he
      rw [register_hit t existing identifier hg]
      exact h
    · have hs := probeAlias_isSome t raw identifier
      cases hp : probeAlias t raw identifier (t.length + 1) 2 with
      | none => rw [hp] at hs; simp at hs
      | some r =>
        obtain ⟨t', c⟩ := r
        rw [register_collision t raw identifier existing hg he t' c hp]
        obtain ⟨ht', _⟩ := probeAlias_some t raw identifier (t.length + 1) 2 t' c hp
        subst ht'
        exact keys_dset_nodup t c raw h

theorem build_invariant (names : List String) : ∀ t : Aliases, (t.map Prod.fst).Nodup →
    ((build_alias_assignments names t).1.map Prod.fst).Nodup ∧
    (∀ k w, dget t k = some w → dget (build_alias_assignments names t).1 k = some w) ∧
    (∀ p ∈ (build_alias_assignments names t).2,
      dget (build_alias_assignments names t).1 p.2 = some p.1) := by
  induction names with
  | nil =>
    intro t h
    exact ⟨h, fun k w hw => hw, by simp [build_alias_assignments]⟩
  | cons n ns ih =>
    intro t h
    have hnd := register_nodup t n (sanitizeCandidate n) h
    obtain ⟨ihnd, ihpers, ihbind⟩ := ih (register_tool_alias t n (sanitizeCandidate n)).1 hnd
    have hunfold : build_alias_assignments (n :: ns) t =
        ((build_alias_assignments ns (register_tool_alias t n (sanitizeCandidate n)).1).1,
         (n, (register_tool_alias t n (sanitizeCandidate n)).2) ::
           (build_alias_assignments ns (register_tool_alias t n (sanitizeCandidate n)).1).2) := rfl
    rw [hunfold]
    refine ⟨ihnd, ?_, ?_⟩
    · intro k w hw
      exact ihpers k w (register_persists t n (sanitizeCandidate n) k w hw)
    · intro p hp
      rcases List.mem_cons.mp hp with hph | hpt
      · subst hph
        exact ihpers (register_tool_alias t n (sanitizeCandidate n)).2 n
          (register_binds t n (sanitizeCandidate n))
      · exact ihbind p hpt

/-- C7: after one epoch reset and a full registration pass over any list
of raw tool names, the alias table has pairwise-distinct local
identifiers as keys (so no identifier maps to two different raw names),
and no two distinct raw names receive the same assigned identifier. -/
theorem alias_pass_injective (names : List String) :
    (((build_aliases names).map Prod.fst).Nodup) ∧
    (∀ p ∈ (build_alias_assignments names []).2,
      ∀ q ∈ (build_alias_assignments names []).2, p.2 = q.2 → p.1 = q.1) := by
  obtain ⟨hnd, _, hbind⟩ := build_invariant names [] (by simp)
  refine ⟨hnd, ?_⟩
  intro p hp q hq he
  have h1 := hbind p hp
  have h2 := hbind q hq
  rw [he] at h1
  rw [h1] at h2
  injection h2

/-- Witness for alias_pass_injective: the colliding pass over a!b and a?b
of the spec, both of which sanitize to a_b. -/
theorem alias_pass_injective_witness :
    (("a!b", "a_b") ∈ (build_alias_assignments [("a!b"), ("a?b")] []).2) ∧
    (("a?b", "a_b_2") ∈ (build_alias_assignments [("a!b"), ("a?b")] []).2) ∧
    ("a!b" = "a!b") :=
  ⟨by decide, by decide,
    (alias_pass_injective [("a!b"), ("a?b")]).2 ("a!b", "a_b") (by decide)
      ("a!b", "a_b") (by decide) rfl⟩

/-- C9: for every alias-table state and raw name and candidate base, the
suffix probe of the registration reaches, within table-size + 1 steps, a
key that is unbound or already bound to the same raw name. -/
theorem register_probe_reaches_free_key (t : Aliases) (raw base : String) :
    ∃ t' c, probeAlias t raw base (t.length + 1) 2 = some (t', c) ∧
      (dget t c = none ∨ dget t c = some raw) := by
  have hs := probeAlias_isSome t raw base
  cases hp : probeAlias t raw base (t.length + 1) 2 with
  | none => rw [hp] at hs; simp at hs
  | some r =>
    obtain ⟨t', c⟩ := r
    refine ⟨t', c, rfl, ?_⟩
    exact (probeAlias_some t raw base (t.length + 1) 2 t' c hp).2

/-- C3: the catalog with exactly the tools search and search! makes both
names sanitize to the candidate search; after one alias-building pass the
first keeps the identifier search, the second is assigned search_2, and
resolving search_2 yields the raw name search!. -/
theorem collision_scenario_search :
    sanitizeCandidate ("search") = ("search") ∧
    sanitizeCandidate ("search!") = ("search") ∧
    build_alias_assignments [("search"), ("search!")] [] =
      ([(("search"), ("search")), (("search_2"), ("search!"))],
       [(("search"), ("search")), (("search!"), ("search_2"))]) ∧
    resolve_tool_name (build_aliases [("search"), ("search!")]) ("search_2") = ("search!") := by
  refine ⟨rfl, rfl, rfl, rfl⟩

theorem reWordChar_eq_spec_allowed (c : Char) : reWordChar c = spec_allowed c :=
  decide_eq_decide.mpr (by tauto)

theorem dropLeading_eq_dropWhile (p : Char → Bool) :
    ∀ cs : List Char, dropLeading p cs = List.dropWhile p cs := by
  intro cs
  induction cs with
  | nil => rfl
  | cons c cs ih => cases hp : p c <;> simp [dropLeading, List.dropWhile, hp, ih]

theorem string_mk_append (a b : List Char) :
    String.mk a ++ String.mk b = String.mk (a ++ b) := rfl


/-- C6: for every raw tool name, the sanitizer produces its candidate by
replacing each character outside [0-9A-Za-z_] with an underscore, then
stripping leading and trailing underscores, then substituting the literal
fallback "tool" if the result is empty, then putting "tool_" in front if
the first character is a digit (stated as equality with the spec-worded
algorithm spec_sanitize). -/
theorem sanitizer_matches_spec (name : String) :
    sanitizeCandidate name = spec_sanitize name := by
  unfold sanitizeCandidate spec_sanitize pyStripChars
  simp only [reWordChar_eq_spec_allowed, dropLeading_eq_dropWhile]
  generalize (List.dropWhile (fun c => c == '_')
      ((List.dropWhile (fun c => c == '_')
        (name.data.map (fun c => if spec_allowed c then c else '_'))).reverse)).reverse = L
  cases L with
  | nil => rfl
  | cons c cs =>
    have hne : String.mk (c :: cs) ≠ "" := by
      intro hh
      have hd := congrArg String.data hh
      exact List.noConfusion hd
    rw [if_neg hne]
    show (if '0' ≤ c ∧ c ≤ '9' then ("tool_") ++ String.mk (c :: cs) else String.mk (c :: cs)) =
      (if '0' ≤ c ∧ c ≤ '9' then String.mk (("tool_").data ++ (c :: cs)) else String.mk (c :: cs))
    by_cases hd : '0' ≤ c ∧ c ≤ '9'
    · rw [if_pos hd, if_pos hd]
      show String.mk (("tool_").data) ++ String.mk (c :: cs) = String.mk (("tool_").data ++ (c :: cs))
      rw [string_mk_append]
    · rw [if_neg hd, if_neg hd]

theorem get_tools_start_stable (s : CacheState) (t : Nat) (h : s.list_task = some t) :
    get_tools_start s false = (s, t) := by
  unfold get_tools_start
  rw [h]

theorem run_starts_stable (n : Nat) (s : CacheState) (t : Nat) (h : s.list_task = some t) :
    run_starts n s = (s, List.replicate n t) := by
  induction n with
  | zero => rfl
  | succ m ih =>
    show (let p := get_tools_start s false;
          let q := run_starts m p.1; (q.1, p.2 :: q.2)) = (s, List.replicate (m + 1) t)
    rw [get_tools_start_stable s t h]
    show ((run_starts m s).1, t :: (run_starts m s).2) = (s, List.replicate (m + 1) t)
    rw [ih, List.replicate_succ]

theorem run_starts_emptyCache (m : Nat) :
    run_starts (m + 1) emptyCache =
      ({ list_task := some 0, next_task := 1, fetch_count := 1 }, List.replicate (m + 1) 0) := by
  show (let p := get_tools_start emptyCache false;
        let q := run_starts m p.1; (q.1, p.2 :: q.2)) = _
  have hstart : get_tools_start emptyCache false =
      ({ list_task := some 0, next_task := 1, fetch_count := 1 }, 0) := rfl
  rw [hstart]
  show ((run_starts m { list_task := some 0, next_task := 1, fetch_count := 1 }).1,
        0 :: (run_starts m { list_task := some 0, next_task := 1, fetch_count := 1 }).2) = _
  rw [run_starts_stable m { list_task := some 0, next_task := 1, fetch_count := 1 } 0 rfl,
    List.replicate_succ]

theorem get_tools_await_snd (s : CacheState) (o : Except String (List Tool)) :
    (get_tools_await s o).2 = o := by
  cases o <;> rfl

theorem run_awaits_values (outcome : Nat → Except String (List Tool)) :
    ∀ (ts : List Nat) (s : CacheState), (run_awaits outcome ts s).2 = ts.map outcome := by
  intro ts
  induction ts with
  | nil => intro s; rfl
  | cons t ts ih =>
    intro s
    show ((run_awaits outcome ts (get_tools_await s (outcome t)).1).1,
          (get_tools_await s (outcome t)).2 ::
            (run_awaits outcome ts (get_tools_await s (outcome t)).1).2).2 = _
    rw [List.map_cons]
    show (get_tools_await s (outcome t)).2 ::
        (run_awaits outcome ts (get_tools_await s (outcome t)).1).2 = _
    rw [get_tools_await_snd, ih]

theorem run_awaits_error_state (e : String) :
    ∀ (ts : List Nat) (s : CacheState), ts ≠ [] →
      (run_awaits (fun _ => Except.error e) ts s).1 = { s with list_task := none } := by
  intro ts
  induction ts with
  | nil => intro s h; exact absurd rfl h
  | cons t ts ih =>
    intro s _
    show (run_awaits (fun _ => Except.error e) ts
        (get_tools_await s (Except.error e)).1).1 = { s with list_task := none }
    cases ts with
    | nil => rfl
    | cons t2 ts2 =>
      show (run_awaits (fun _ => Except.error e) (t2 :: ts2) { s with list_task := none }).1 = _
      rw [ih { s with list_task := none } (by simp)]

/-- C1: starting from the Empty cache state, any number n of concurrent
getCatalog(refresh=false) callers start exactly one fetch (one
client.list_tools call), all await the same task, and all receive that
single fetch's result, whatever it is. -/
theorem single_flight (n : Nat) (outcome : Nat → Except String (List Tool)) (h : 1 ≤ n) :
    (run_starts n emptyCache).1.fetch_count = 1 ∧
    (run_starts n emptyCache).1.list_task = some 0 ∧
    (run_starts n emptyCache).2 = List.replicate n 0 ∧
    (run_awaits outcome (run_starts n emptyCache).2 (run_starts n emptyCache).1).2 =
      List.replicate n (outcome 0) := by
  obtain ⟨m, rfl⟩ : ∃ m, n = m + 1 := ⟨n - 1, by omega⟩
  rw [run_starts_emptyCache m]
  refine ⟨rfl, rfl, rfl, ?_⟩
  rw [run_awaits_values outcome]
  rw [List.map_replicate]

/-- Witness for single_flight: three concurrent callers and a successful
fetch of the empty catalog. -/
theorem single_flight_witness :
    (run_starts 3 emptyCache).1.fetch_count = 1 ∧
    (run_starts 3 emptyCache).1.list_task = some 0 ∧
    (run_starts 3 emptyCache).2 = List.replicate 3 0 ∧
    (run_awaits (fun _ => Except.ok []) (run_starts 3 emptyCache).2 (run_starts 3 emptyCache).1).2 =
      List.replicate 3 (Except.ok []) :=
  single_flight 3 (fun _ => Except.ok []) (by decide)

/-- C4: when the awaited fetch fails, every caller awaiting that fetch
receives the failure, the cache is reset to Empty (no error result is
retained), and the next refresh=false call starts a brand-new fetch (a
second fetch, with a fresh task id). -/
theorem fetch_failure_resets (n : Nat) (e : String) (h : 1 ≤ n) :
    fail_scenario_results n e = List.replicate n (Except.error e) ∧
    (fail_scenario_state n e).list_task = none ∧
    (get_tools_start (fail_scenario_state n e) false).1.fetch_count = 2 ∧
    (get_tools_start (fail_scenario_state n e) false).2 = 1 := by
  obtain ⟨m, rfl⟩ : ∃ m, n = m + 1 := ⟨n - 1, by omega⟩
  have hres : fail_scenario_results (m + 1) e = List.replicate (m + 1) (Except.error e) := by
    unfold fail_scenario_results
    rw [run_starts_emptyCache m, run_awaits_values, List.map_replicate]
  have hstate : fail_scenario_state (m + 1) e =
      { list_task := none, next_task := 1, fetch_count := 1 } := by
    unfold fail_scenario_state
    rw [run_starts_emptyCache m,
      run_awaits_error_state e (List.replicate (m + 1) 0)
        { list_task := some 0, next_task := 1, fetch_count := 1 } (by simp)]
  rw [hres, hstate]
  exact ⟨rfl, rfl, rfl, rfl⟩

/-- Witness for fetch_failure_resets: two callers and one failing
fetch. -/
theorem fetch_failure_resets_witness :
    fail_scenario_results 2 ("boom") = List.replicate 2 (Except.error ("boom")) ∧
    (fail_scenario_state 2 ("boom")).list_task = none ∧
    (get_tools_start (fail_scenario_state 2 ("boom")) false).1.fetch_count = 2 ∧
    (get_tools_start (fail_scenario_state 2 ("boom")) false).2 = 1 :=
  fetch_failure_resets 2 ("boom") (by decide)

/-- C8: the round-trip schema yields exactly two parameter descriptors,
query (required, plain string annotation) and limit (optional, integer
annotation wrapped nullable, explicit default 5), and the documentation
entries list query before limit, in declaration order. -/
theorem round_trip_scenario :
    ToolsExecutor.schema_parameters roundTripSchema =
      Except.ok ((("(*, query: str, limit: int | None = 5)")),
        [("query (str): search text [required]"),
         ("limit (int | None): No description provided. [default=5, optional]")]) ∧
    ToolsExecutor.param_infos [JVal.str ("query")]
      [(("query"), JVal.obj [(("type"), JVal.str ("string")),
                             (("description"), JVal.str ("search text"))]),
       (("limit"), JVal.obj [(("type"), JVal.str ("integer")),
                             (("default"), JVal.num 5)])] =
      Except.ok [
        { typeAnn := ("str"), optional := false, param_str := ("query: str"),
          doc_entry := ("query (str): search text [required]") },
        { typeAnn := ("int | None"), optional := true, param_str := ("limit: int | None = 5"),
          doc_entry := ("limit (int | None): No description provided. [default=5, optional]") }] :=
  ⟨rfl, rfl⟩

theorem string_append_ne_empty_right (a b : String) (h : b ≠ ("")) : a ++ b ≠ ("") := by
  intro hh
  apply h
  have hd := congrArg String.data hh
  rw [String.data_append] at hd
  have hb : b.data = [] := (List.append_eq_nil.mp hd).2
  cases b with
  | mk bd =>
    have hbd : bd = [] := hb
    subst hbd
    rfl

theorem strEndsWith_append (a suf : String) : strEndsWith (a ++ suf) suf = true := by
  unfold strEndsWith
  rw [String.data_append, List.reverse_append]
  rw [show suf.data.length = suf.data.reverse.length from (List.length_reverse _).symm]
  rw [List.take_left]
  simp

theorem endsWith_wrap (b : String) (opt : Bool) (ho : opt = true) :
    strEndsWith (if opt && !(strEndsWith b (" | None")) then b ++ (" | None") else b)
      (" | None") = true := by
  subst ho
  cases hb : strEndsWith b (" | None") <;> simp [hb, strEndsWith_append]

theorem type_map_ne_empty (s : String) : ToolsExecutor.type_map s ≠ ("") := by
  unfold ToolsExecutor.type_map
  repeat' split
  all_goals decide

theorem annotationAux_fst_ne_empty : ∀ (fuel : Nat) (fs : List (String × JVal)),
    (ToolsExecutor.annotationAux fuel fs).1 ≠ ("") := by
  intro fuel fs
  cases fuel with
  | zero => exact (by decide : ("Any" : String) ≠ (""))
  | succ f =>
    rw [ToolsExecutor.annotationAux]
    dsimp only
    split
    · exact string_append_ne_empty_right _ _ (by decide)
    · split
      · exact (by decide : ("str" : String) ≠ (""))
      · split
        · exact type_map_ne_empty _
        · exact (by decide : ("Any" : String) ≠ (""))

theorem annotationAux_snd (f : Nat) (fs : List (String × JVal)) :
    (ToolsExecutor.annotationAux (f + 1) fs).2 =
      (match (jlookup fs ("type")).getD JVal.null with
       | JVal.arr ts => jmem (JVal.str ("null")) ts
       | _ => false) := by
  rw [ToolsExecutor.annotationAux]
  dsimp only
  split <;> rfl

theorem annotation_from_schema_snd (fs : List (String × JVal)) :
    (ToolsExecutor.annotation_from_schema fs).2 = type_union_has_null (JVal.obj fs) := by
  cases fs with
  | nil => rfl
  | cons q fs =>
    unfold ToolsExecutor.annotation_from_schema
    have hsz : jsizeFields (q :: fs) = (jsize q.2 + jsizeFields fs) + 1 := by
      obtain ⟨k, v⟩ := q
      rw [jsizeFields]
      dsimp only
      omega
    rw [hsz, annotationAux_snd]
    rfl

/-- C5: a parameter is marked optional exactly when its type union
contains null, or it is not in the required set, or it carries an
explicit default equal to null; whenever it is optional its annotation is
wrapped as nullable unless already nullable, and the property with type
["string", "null"] yields the nullable string annotation regardless of
the required set. -/
theorem optional_flag_characterization (required : List JVal) (param_name : String)
    (prop_schema : JVal) (info : ParamInfo)
    (h : ToolsExecutor.param_info required param_name prop_schema = Except.ok info) :
    info.optional = (type_union_has_null prop_schema ||
        !(jmem (JVal.str param_name) required) || has_explicit_null_default prop_schema) ∧
    (info.optional = true → strEndsWith info.typeAnn (" | None") = true) ∧
    info.typeAnn = (if info.optional && !(strEndsWith (inferred_ann prop_schema) (" | None"))
        then inferred_ann prop_schema ++ (" | None") else inferred_ann prop_schema) ∧
    (∀ req2 nm2, (ToolsExecutor.param_info req2 nm2 nullableStringProp).map
        (fun i => (i.typeAnn, i.optional)) = Except.ok ((("str | None"), true))) := by
  cases prop_schema with
  | obj fs =>
    unfold ToolsExecutor.param_info at h
    dsimp only at h
    cases hdesc : ToolsExecutor.descOf fs with
    | error e =>
      rw [hdesc] at h
      exact Except.noConfusion h
    | ok d =>
      rw [hdesc] at h
      dsimp only at h
      injection h with hinfo
      subst hinfo
      refine ⟨?_, ?_, ?_, fun req2 nm2 => rfl⟩
      · dsimp only
        rw [annotation_from_schema_snd]
        rfl
      · intro ho
        exact endsWith_wrap ((ToolsExecutor.annotation_from_schema fs).1) _ ho
      · rfl
  | null =>
    unfold ToolsExecutor.param_info at h
    dsimp only at h
    injection h with hinfo
    subst hinfo
    refine ⟨rfl, ?_, rfl, fun req2 nm2 => rfl⟩
    intro ho
    exact endsWith_wrap ("Any") _ ho
  | bool b =>
    unfold ToolsExecutor.param_info at h
    dsimp only at h
    injection h with hinfo
    subst hinfo
    refine ⟨rfl, ?_, rfl, fun req2 nm2 => rfl⟩
    intro ho
    exact endsWith_wrap ("Any") _ ho
  | num i =>
    unfold ToolsExecutor.param_info at h
    dsimp only at h
    injection h with hinfo
    subst hinfo
    refine ⟨rfl, ?_, rfl, fun req2 nm2 => rfl⟩
    intro ho
    exact endsWith_wrap ("Any") _ ho
  | str s =>
    unfold ToolsExecutor.param_info at h
    dsimp only at h
    injection h with hinfo
    subst hinfo
    refine ⟨rfl, ?_, rfl, fun req2 nm2 => rfl⟩
    intro ho
    exact endsWith_wrap ("Any") _ ho
  | arr xs =>
    unfold ToolsExecutor.param_info at h
    dsimp only at h
    injection h with hinfo
    subst hinfo
    refine ⟨rfl, ?_, rfl, fun req2 nm2 => rfl⟩
    intro ho
    exact endsWith_wrap ("Any") _ ho

/-- Witness for optional_flag_characterization: a property p with no
required entry and the nullable-union schema. -/
theorem optional_flag_characterization_witness :
    ToolsExecutor.param_info [] ("p") nullableStringProp = Except.ok
      { typeAnn := ("str | None"), optional := true, param_str := ("p: str | None = None"),
        doc_entry := ("p (str | None): No description provided. [optional]") } ∧
    ({ typeAnn := ("str | None"), optional := true, param_str := ("p: str | None = None"),
       doc_entry := ("p (str | None): No description provided. [optional]") } : ParamInfo).optional =
      (type_union_has_null nullableStringProp || !(jmem (JVal.str ("p")) []) ||
        has_explicit_null_default nullableStringProp) :=
  ⟨rfl, (optional_flag_characterization [] ("p") nullableStringProp
    { typeAnn := ("str | None"), optional := true, param_str := ("p: str | None = None"),
      doc_entry := ("p (str | None): No description provided. [optional]") } rfl).1⟩

theorem wrap_ne_empty (b : String) (opt : Bool) (hb : b ≠ ("")) :
    (if opt && !(strEndsWith b (" | None")) then b ++ (" | None") else b) ≠ ("") := by
  split
  · exact string_append_ne_empty_right b _ (by decide)
  · exact hb

theorem param_info_typeAnn_ne (required : List JVal) (param_name : String) (prop : JVal)
    (info : ParamInfo) (h : ToolsExecutor.param_info required param_name prop = Except.ok info) :
    info.typeAnn ≠ ("") := by
  cases prop with
  | obj fs =>
    unfold ToolsExecutor.param_info at h
    dsimp only at h
    cases hdesc : ToolsExecutor.descOf fs with
    | error e =>
      rw [hdesc] at h
      exact Except.noConfusion h
    | ok d =>
      rw [hdesc] at h
      dsimp only at h
      injection h with hinfo
      subst hinfo
      exact wrap_ne_empty _ _ (annotationAux_fst_ne_empty _ _)
  | null =>
    unfold ToolsExecutor.param_info at h
    dsimp only at h
    injection h with hinfo
    subst hinfo
    exact wrap_ne_empty ("Any") _ (by decide)
  | bool b =>
    unfold ToolsExecutor.param_info at h
    dsimp only at h
    injection h with hinfo
    subst hinfo
    exact wrap_ne_empty ("Any") _ (by decide)
  | num i =>
    unfold ToolsExecutor.param_info at h
    dsimp only at h
    injection h with hinfo
    subst hinfo
    exact wrap_ne_empty ("Any") _ (by decide)
  | str s =>
    unfold ToolsExecutor.param_info at h
    dsimp only at h
    injection h with hinfo
    subst hinfo
    exact wrap_ne_empty ("Any") _ (by decide)
  | arr xs =>
    unfold ToolsExecutor.param_info at h
    dsimp only at h
    injection h with hinfo
    subst hinfo
    exact wrap_ne_empty ("Any") _ (by decide)

theorem descOf_ok_of_desc_ok (fs : List (String × JVal)) (h : desc_ok (JVal.obj fs) = true) :
    ∃ d, ToolsExecutor.descOf fs = Except.ok d := by
  unfold desc_ok at h
  dsimp only at h
  cases hl : jlookup fs ("description") with
  | none =>
    refine ⟨("No description provided."), ?_⟩
    unfold ToolsExecutor.descOf
    rw [hl]
  | some v =>
    rw [hl] at h
    cases v with
    | str s =>
      refine ⟨(if pyStrip s = ("") then ("No description provided.") else pyStrip s), ?_⟩
      unfold ToolsExecutor.descOf
      rw [hl]
    | null => simp at h
    | bool b => simp at h
    | num i => simp at h
    | arr xs => simp at h
    | obj gs => simp at h

theorem param_info_ok (required : List JVal) (param_name : String) (prop : JVal)
    (h : desc_ok prop = true) :
    ∃ info, ToolsExecutor.param_info required param_name prop = Except.ok info := by
  cases prop with
  | obj fs =>
    obtain ⟨d, hd⟩ := descOf_ok_of_desc_ok fs h
    cases hpi : ToolsExecutor.param_info required param_name (JVal.obj fs) with
    | ok info => exact ⟨info, rfl⟩
    | error e =>
      unfold ToolsExecutor.param_info at hpi
      dsimp only at hpi
      rw [hd] at hpi
      dsimp only at hpi
      exact Except.noConfusion hpi
  | null => exact ⟨_, rfl⟩
  | bool b => exact ⟨_, rfl⟩
  | num i => exact ⟨_, rfl⟩
  | str s => exact ⟨_, rfl⟩
  | arr xs => exact ⟨_, rfl⟩

theorem param_infos_ok (required : List JVal) :
    ∀ props : List (String × JVal), (∀ p ∈ props, desc_ok p.2 = true) →
      ∃ infos, ToolsExecutor.param_infos required props = Except.ok infos ∧
        infos.length = props.length ∧ ∀ i ∈ infos, i.typeAnn ≠ ("") := by
  intro props
  induction props with
  | nil => intro _; exact ⟨[], rfl, rfl, by simp⟩
  | cons p rest ih =>
    intro hall
    obtain ⟨nm, pv⟩ := p
    obtain ⟨info, hinfo⟩ := param_info_ok required nm pv (hall (nm, pv) (by simp))
    obtain ⟨infos, hinfos, hlen, hann⟩ := ih (fun q hq => hall q (by simp [hq]))
    refine ⟨info :: infos, ?_, ?_, ?_⟩
    · show (match ToolsExecutor.param_info required nm pv with
            | Except.error e => Except.error e
            | Except.ok i =>
              match ToolsExecutor.param_infos required rest with
              | Except.error e => Except.error e
              | Except.ok more => Except.ok (i :: more)) =
        Except.ok (info :: infos)
      rw [hinfo, hinfos]
    · simp [hlen]
    · intro i hi
      rcases List.mem_cons.mp hi with hh | hh
      · subst hh
        exact param_info_typeAnn_ne required nm pv i hinfo
      · exact hann i hh

theorem requiredSetOf_ok (fs : List (String × JVal)) (h : required_ok fs = true) :
    ∃ r, ToolsExecutor.requiredSetOf fs = Except.ok r := by
  unfold required_ok at h
  cases hl : jlookup fs ("required") with
  | none =>
    refine ⟨[], ?_⟩
    unfold ToolsExecutor.requiredSetOf
    rw [hl]
  | some v =>
    rw [hl] at h
    cases v with
    | arr xs =>
      dsimp only at h
      refine ⟨xs, ?_⟩
      unfold ToolsExecutor.requiredSetOf
      rw [hl]
      dsimp only
      rw [if_pos h]
    | null => exact ⟨[], by unfold ToolsExecutor.requiredSetOf; rw [hl]⟩
    | bool b => exact ⟨[], by unfold ToolsExecutor.requiredSetOf; rw [hl]⟩
    | num i => exact ⟨[], by unfold ToolsExecutor.requiredSetOf; rw [hl]⟩
    | str s => exact ⟨[], by unfold ToolsExecutor.requiredSetOf; rw [hl]⟩
    | obj gs => exact ⟨[], by unfold ToolsExecutor.requiredSetOf; rw [hl]⟩

/-- C2 counterexample: a property whose description is the number 5 makes
the translator raise (the .strip() attribute access fails in Python), so
the translator is not total over all schema values. -/
theorem translator_raises_on_nonstring_description :
    ToolsExecutor.schema_parameters badDescSchema =
      Except.error ("AttributeError: a non-string description has no strip method") := rfl

/-- C2 (amended): for every schema value whose property descriptions,
when present, are strings and whose required list holds only hashable
values, the translator returns without raising and assigns every listed
property a non-empty type annotation. -/
theorem translator_total_on_safe_inputs (schema : JVal)
    (h : translator_input_safe schema = true) :
    exceptOk (ToolsExecutor.schema_parameters schema) = true ∧
    (∀ fs props required, schema = JVal.obj fs →
      jlookup fs ("properties") = some (JVal.obj props) →
      ToolsExecutor.requiredSetOf fs = Except.ok required →
      ∃ infos, ToolsExecutor.param_infos required props = Except.ok infos ∧
        infos.length = props.length ∧ ∀ i ∈ infos, i.typeAnn ≠ ("")) := by
  constructor
  · cases schema with
    | obj fs =>
      unfold ToolsExecutor.schema_parameters
      unfold translator_input_safe at h
      dsimp only
      dsimp only at h
      cases hp : jlookup fs ("properties") with
      | none => rfl
      | some v =>
        cases v with
        | obj props =>
          dsimp only
          cases hemp : props.isEmpty with
          | true => rw [if_pos rfl]; rfl
          | false =>
            rw [if_neg Bool.false_ne_true]
            rw [hp] at h
            dsimp only at h
            rw [hemp] at h
            simp only [Bool.false_or, Bool.and_eq_true] at h
            obtain ⟨hreq, hdesc⟩ := h
            obtain ⟨r, hr⟩ := requiredSetOf_ok fs hreq
            rw [hr]
            dsimp only
            obtain ⟨infos, hinfos, _, _⟩ := param_infos_ok r props
              (fun p hp2 => (List.all_eq_true.mp hdesc p hp2))
            rw [hinfos]
            dsimp only
            split <;> rfl
        | null => rfl
        | bool b => rfl
        | num i => rfl
        | str s => rfl
        | arr xs => rfl
    | null => rfl
    | bool b => rfl
    | num i => rfl
    | str s => rfl
    | arr xs => rfl
  · intro fs props required hs hp hr
    subst hs
    unfold translator_input_safe at h
    dsimp only at h
    rw [hp] at h
    dsimp only at h
    cases hemp : props.isEmpty with
    | true =>
      have hnil : props = [] := List.isEmpty_iff.mp hemp
      subst hnil
      exact ⟨[], rfl, rfl, by simp⟩
    | false =>
      rw [hemp] at h
      simp only [Bool.false_or, Bool.and_eq_true] at h
      obtain ⟨hreq, hdesc⟩ := h
      exact param_infos_ok required props (fun p hp2 => List.all_eq_true.mp hdesc p hp2)

/-- Witness for translator_total_on_safe_inputs: the round-trip schema is
a safe input and translates without raising. -/
theorem translator_total_on_safe_inputs_witness :
    translator_input_safe roundTripSchema = true ∧
    exceptOk (ToolsExecutor.schema_parameters roundTripSchema) = true :=
  ⟨by decide, (translator_total_on_safe_inputs roundTripSchema (by decide)).1⟩

theorem type_map_agree (s : String) : ToolsExecutor.type_map s = McpExecutor.type_map s := rfl

theorem annotationAux_agree : ∀ (fuel : Nat) (fs : List (String × JVal)),
    ToolsExecutor.annotationAux fuel fs = McpExecutor.annotationAux fuel fs := by
  intro fuel
  induction fuel with
  | zero => intro fs; rfl
  | succ f ih =>
    intro fs
    rw [ToolsExecutor.annotationAux, McpExecutor.annotationAux]
    dsimp only
    simp only [ih, type_map_agree]

theorem annotation_from_schema_agree (fs : List (String × JVal)) :
    ToolsExecutor.annotation_from_schema fs = McpExecutor.annotation_from_schema fs := by
  unfold ToolsExecutor.annotation_from_schema McpExecutor.annotation_from_schema
  exact annotationAux_agree _ _

theorem descOf_agree (fs : List (String × JVal)) :
    ToolsExecutor.descOf fs = McpExecutor.descOf fs := rfl

theorem requiredSetOf_agree (fs : List (String × JVal)) :
    ToolsExecutor.requiredSetOf fs = McpExecutor.requiredSetOf fs := rfl

theorem param_info_agree (required : List JVal) (param_name : String) (prop : JVal) :
    ToolsExecutor.param_info required param_name prop =
      McpExecutor.param_info required param_name prop := by
  unfold ToolsExecutor.param_info McpExecutor.param_info
  simp only [annotation_from_schema_agree, descOf_agree]

theorem param_infos_agree (required : List JVal) :
    ∀ props : List (String × JVal),
      ToolsExecutor.param_infos required props = McpExecutor.param_infos required props := by
  intro props
  induction props with
  | nil => rfl
  | cons p rest ih =>
    obtain ⟨nm, pv⟩ := p
    simp only [ToolsExecutor.param_infos, McpExecutor.param_infos, param_info_agree, ih]

theorem schema_parameters_agree (schema : JVal) :
    ToolsExecutor.schema_parameters schema = McpExecutor.schema_parameters schema := by
  unfold ToolsExecutor.schema_parameters McpExecutor.schema_parameters
  simp only [param_infos_agree, requiredSetOf_agree]

/-- C10: the module-level translator of tools-executor and the
ToolExecutor methods of mcp-executor compute identical results: the
type-inference helper agrees on every property dict, and the rendered
signature and documentation entries agree on every schema. -/
theorem translators_agree :
    (∀ fs, ToolsExecutor.annotation_from_schema fs = McpExecutor.annotation_from_schema fs) ∧
    (∀ schema, ToolsExecutor.schema_parameters schema = McpExecutor.schema_parameters schema) :=
  ⟨annotation_from_schema_agree, schema_parameters_agree⟩
